import Mathlib

/-!
Verification of the ln-contest-epub build script (dodo.py).

Strings from the Python side are modelled as lists of characters
(abbreviated Str below).  Python's Unicode-aware case folding and
alphanumeric test are modelled by the corresponding ASCII functions on
Char; all string constants appearing in the program are ASCII, and the
claims are settled on ASCII inputs.
-/

namespace LnContestEpub

abbrev Str := List Char

/-- Shorthand: turn a Lean string literal into the Str model. -/
def S (s : String) : Str := s.data

/-- Python whitespace as matched by the regular expression class
backslash-s and stripped by str.rstrip, restricted to ASCII. -/
def isPySpace (c : Char) : Bool :=
  c = ' ' || c = '\t' || c = '\n' || c = '\r' || c = '\x0b' || c = '\x0c'

/-- Model of Python str.lower (ASCII range). -/
def lowerStr (s : Str) : Str := s.map Char.toLower

/-- Model of Python str.isalnum (ASCII range). -/
def pyIsAlnum (c : Char) : Bool := c.isAlphanum

/-- Model of the Python substring test (needle in hay). -/
def containsSub (hay needle : Str) : Bool :=
  match hay with
  | [] => needle.isEmpty
  | c :: t => needle.isPrefixOf (c :: t) || containsSub t needle

/-- The needle occurs as a contiguous substring of the haystack. -/
def OccursIn (needle hay : Str) : Prop :=
  ∃ p q, hay = p ++ needle ++ q

/-- Strip trailing whitespace (Python str.rstrip with no argument). -/
def rstripL (s : Str) : Str := (s.reverse.dropWhile isPySpace).reverse

/-!
Model of hashlib.sha256(...).hexdigest() as used by Book.identifier.
This is the standard FIPS 180-4 SHA-256 over a list of bytes, with the
round and initial-state constants derived, as in the standard, from the
fractional parts of the cube and square roots of the first primes.
-/

/-- 32-bit truncation. -/
def w32 (n : Nat) : Nat := n % 4294967296

/-- Rotate a 32-bit word right by n bits. -/
def rotr32 (n x : Nat) : Nat := w32 (x / 2 ^ n + x % 2 ^ n * 2 ^ (32 - n))

/-- Shift a 32-bit word right by n bits. -/
def shr32 (n x : Nat) : Nat := x / 2 ^ n

/-- Bitwise complement of a 32-bit word. -/
def not32 (x : Nat) : Nat := 4294967295 - w32 x

/-- The first 64 primes, sources of the SHA-256 constants. -/
def first64Primes : List Nat :=
  [2, 3, 5, 7, 11, 13, 17, 19, 23, 29, 31, 37, 41, 43, 47, 53,
   59, 61, 67, 71, 73, 79, 83, 89, 97, 101, 103, 107, 109, 113, 127, 131,
   137, 139, 149, 151, 157, 163, 167, 173, 179, 181, 191, 193, 197, 199, 211, 223,
   227, 229, 233, 239, 241, 251, 257, 263, 269, 271, 277, 281, 283, 293, 307, 311]

/-- Binary search step for the integer cube root. -/
def icbrtAux (n : Nat) : Nat → Nat → Nat → Nat
  | 0, lo, _ => lo
  | fuel + 1, lo, hi =>
    if hi ≤ lo + 1 then lo
    else
      let mid := (lo + hi) / 2
      if mid ^ 3 ≤ n then icbrtAux n fuel mid hi else icbrtAux n fuel lo mid

/-- Integer cube root (exact floor for arguments below 2 to the 132). -/
def icbrt (n : Nat) : Nat := icbrtAux n 64 0 (2 ^ 44)

/-- Binary search step for the integer square root. -/
def isqrtAux (n : Nat) : Nat → Nat → Nat → Nat
  | 0, lo, _ => lo
  | fuel + 1, lo, hi =>
    if hi ≤ lo + 1 then lo
    else
      let mid := (lo + hi) / 2
      if mid ^ 2 ≤ n then isqrtAux n fuel mid hi else isqrtAux n fuel lo mid

/-- Integer square root (exact floor for arguments below 2 to the 80). -/
def isqrt (n : Nat) : Nat := isqrtAux n 64 0 (2 ^ 40)

/-- SHA-256 round constants: first 32 fractional bits of the cube roots
of the first 64 primes. -/
def sha256K : List Nat := first64Primes.map fun p => w32 (icbrt (p * 2 ^ 96))

/-- SHA-256 initial state: first 32 fractional bits of the square roots
of the first 8 primes. -/
def sha256H0 : List Nat := (first64Primes.take 8).map fun p => w32 (isqrt (p * 2 ^ 64))

/-- Big-endian byte encoding of a number into k bytes. -/
def beBytes : Nat → Nat → List Nat
  | 0, _ => []
  | k + 1, n => beBytes k (n / 256) ++ [n % 256]

/-- SHA-256 message padding: 0x80, zeros to 56 mod 64, 64-bit bit length. -/
def padMessage (msg : List Nat) : List Nat :=
  let L := msg.length
  msg ++ [128] ++ List.replicate ((119 - L % 64) % 64) 0 ++ beBytes 8 (8 * L)

/-- Split a byte list into blocks of 64 (fuel-based so that the kernel
can evaluate it; the fuel is the list length, ample since every step
consumes at least one element). -/
def chunks64Aux : Nat → List Nat → List (List Nat)
  | 0, _ => []
  | _, [] => []
  | fuel + 1, x :: xs => (x :: xs).take 64 :: chunks64Aux fuel ((x :: xs).drop 64)

/-- Split a byte list into blocks of 64. -/
def chunks64 (l : List Nat) : List (List Nat) := chunks64Aux l.length l

/-- The i-th big-endian 32-bit word of a byte block. -/
def beWord (b : List Nat) (i : Nat) : Nat :=
  b.getD (4 * i) 0 * 16777216 + b.getD (4 * i + 1) 0 * 65536 +
    b.getD (4 * i + 2) 0 * 256 + b.getD (4 * i + 3) 0

def smallSigma0 (x : Nat) : Nat := (rotr32 7 x ^^^ rotr32 18 x) ^^^ shr32 3 x
def smallSigma1 (x : Nat) : Nat := (rotr32 17 x ^^^ rotr32 19 x) ^^^ shr32 10 x
def bigSigma0 (x : Nat) : Nat := (rotr32 2 x ^^^ rotr32 13 x) ^^^ rotr32 22 x
def bigSigma1 (x : Nat) : Nat := (rotr32 6 x ^^^ rotr32 11 x) ^^^ rotr32 25 x
def chFn (x y z : Nat) : Nat := (x &&& y) ^^^ (not32 x &&& z)
def majFn (x y z : Nat) : Nat := ((x &&& y) ^^^ (x &&& z)) ^^^ (y &&& z)

/-- Extend the 16 message words to the 64-entry message schedule. -/
def fullSchedule (ws : List Nat) : List Nat :=
  (List.range 48).foldl
    (fun w _ =>
      let t := w.length
      w ++ [w32 (w.getD (t - 16) 0 + smallSigma0 (w.getD (t - 15) 0) +
                 w.getD (t - 7) 0 + smallSigma1 (w.getD (t - 2) 0))])
    ws

/-- Cons that first evaluates its head to a numeral (provably equal to
List.cons; it keeps kernel evaluation of concrete digests shallow). -/
def strictCons (n : Nat) (l : List Nat) : List Nat :=
  match n with
  | 0 => 0 :: l
  | m + 1 => (m + 1) :: l

/-- One SHA-256 compression round on the 8-word working state. -/
def sha256Round (st : List Nat) (kw : Nat × Nat) : List Nat :=
  match st with
  | [a, b, c, d, e, f, g, h] =>
    let t1 := w32 (h + bigSigma1 e + chFn e f g + kw.1 + kw.2)
    let t2 := w32 (bigSigma0 a + majFn a b c)
    strictCons (w32 (t1 + t2)) (a :: b :: c :: strictCons (w32 (d + t1)) (e :: f :: g :: []))
  | other => other

/-- Process one 64-byte block. -/
def processBlock (h : List Nat) (block : List Nat) : List Nat :=
  let w := fullSchedule ((List.range 16).map (beWord block))
  let st := (sha256K.zip w).foldl sha256Round h
  (h.zip st).map fun p => w32 (p.1 + p.2)

/-- SHA-256 digest of a byte list, as 32 bytes. -/
def sha256Bytes (msg : List Nat) : List Nat :=
  (((chunks64 (padMessage msg)).foldl processBlock sha256H0).map (beBytes 4)).flatten

/-- Lowercase hex digit. -/
def hexDigit (n : Nat) : Char := if n < 10 then Char.ofNat (48 + n) else Char.ofNat (87 + n)

/-- Lowercase hex string of a byte list (hexdigest). -/
def toHex (bytes : List Nat) : Str :=
  (bytes.map fun b => [hexDigit (b / 16), hexDigit (b % 16)]).flatten

/-- Model of str.encode of Python (UTF-8 bytes of a string). -/
def utf8Bytes (s : Str) : List Nat :=
  (s.map fun c =>
    let n := c.toNat
    if n < 128 then [n]
    else if n < 2048 then [192 + n / 64, 128 + n % 64]
    else if n < 65536 then [224 + n / 4096, 128 + n / 64 % 64, 128 + n % 64]
    else [240 + n / 262144, 128 + n / 4096 % 64, 128 + n / 64 % 64, 128 + n % 64]).flatten

/-- hashlib.sha256(text.encode("utf8")).hexdigest() -/
def sha256HexOfStr (s : Str) : Str := toHex (sha256Bytes (utf8Bytes s))

/-!
Model of urllib.parse.urlparse, restricted to what dodo.py reads from
the result: the hostname and the path.  The model covers the URL shapes
the program meets: strings with an explicit scheme-netloc separator
(the three characters colon slash slash) have a netloc, everything else
parses with no netloc and the whole string as path.  The hostname is
the netloc after the last at-sign and before the first colon,
lowercased; an empty netloc gives no hostname.
-/

structure UrlParts where
  hostname : Option Str
  path : Str
deriving DecidableEq

/-- Split a string at the first occurrence of the scheme-netloc
separator, returning the parts before and after it. -/
def splitSchemeSep : Str → Option (Str × Str)
  | [] => none
  | ':' :: '/' :: '/' :: rest => some ([], rest)
  | c :: rest => (splitSchemeSep rest).map fun p => (c :: p.1, p.2)

/-- Hostname of a netloc: after the last at-sign, before the first
colon, lowercased; None when empty. -/
def hostnameOfNetloc (netloc : Str) : Option Str :=
  let afterAt := (netloc.reverse.takeWhile (· ≠ '@')).reverse
  let h := afterAt.takeWhile (· ≠ ':')
  if h = [] then none else some (lowerStr h)

/-- urllib.parse.urlparse, reduced to hostname and path. -/
def pyUrlparse (u : Str) : UrlParts :=
  match splitSchemeSep u with
  | some (_, rest) =>
    { hostname := hostnameOfNetloc (rest.takeWhile (· ≠ '/'))
      path := rest.dropWhile (· ≠ '/') }
  | none => { hostname := none, path := u }

/-!
Model of pathlib paths, reduced to what dodo.py uses: joining, the
final component (name), the parent, the suffix, and with_suffix.  A
path is its list of nonempty components.
-/

abbrev PathM := List Str

/-- Split a string on slashes, keeping pieces in order. -/
def splitSlashAux : Str → Str → List Str
  | [], acc => [acc.reverse]
  | c :: rest, acc =>
    if c = '/' then acc.reverse :: splitSlashAux rest []
    else splitSlashAux rest (c :: acc)

/-- The nonempty slash-separated components of a string. -/
def pathComps (s : Str) : List Str := (splitSlashAux s []).filter (· ≠ [])

/-- pathlib name: the final component, or empty. -/
def pathNameOf (p : PathM) : Str := p.getLast?.getD []

/-- pathlib suffix of a file name: the part from the last dot on, when
that dot is neither the first nor the last character. -/
def pySuffixOfName (name : Str) : Str :=
  match (name.reverse.findIdx? (· = '.')) with
  | none => []
  | some j =>
    let i := name.length - 1 - j
    if 0 < i ∧ i < name.length - 1 then name.drop i else []

/-- pathlib suffix of a path. -/
def pySuffix (p : PathM) : Str := pySuffixOfName (pathNameOf p)

/-- pathlib with_suffix for the well-formed suffixes dodo.py passes
(empty, or dot-initial with no slash): the old suffix of the final
component is replaced by the new one. -/
def pyWithSuffix (p : PathM) (sfx : Str) : PathM :=
  let name := pathNameOf p
  let old := pySuffixOfName name
  p.dropLast ++ [name.take (name.length - old.length) ++ sfx]

/-- The build directory constant of dodo.py. -/
def build_dir : PathM := [S "build"]

/-!
The Entry record of dodo.py and its derived properties.
-/

structure Entry where
  title : Str
  emoji_url : Str
  emoji_name : Str
  tags : List Str
  url : Str
deriving DecidableEq

/-- Collapse of each maximal whitespace run to one hyphen: model of
re.sub of backslash-s-plus to a hyphen, as a left-to-right scan with a
flag recording whether the previous character was whitespace. -/
def collapseWsAux : Bool → Str → Str
  | _, [] => []
  | prevWs, c :: rest =>
    if isPySpace c then
      if prevWs then collapseWsAux true rest
      else '-' :: collapseWsAux true rest
    else c :: collapseWsAux false rest

/-- Characters kept by Entry.basename: alphanumeric, underscore, hyphen. -/
def keepChar (c : Char) : Bool := pyIsAlnum c || c = '_' || c = '-'

/-- Entry.basename of dodo.py: lowercase the title, replace whitespace
runs by hyphens, keep only alphanumerics, underscore and hyphen, and
strip trailing whitespace. -/
def Entry.basename (e : Entry) : Str :=
  rstripL ((collapseWsAux false (lowerStr e.title)).filter keepChar)

/-- The Python assertion failure, called PreconditionError by the spec. -/
inductive PreconditionError
  | assertionFailed
deriving DecidableEq

/-- Entry.google_drive_file_id of dodo.py: parse the url, assert the
hostname is docs.google.com, drop a final edit component, and return
the final path component. -/
def Entry.google_drive_file_id (e : Entry) : Except PreconditionError Str :=
  let url_parts := pyUrlparse e.url
  if url_parts.hostname = some (S "docs.google.com") then
    let path := pathComps url_parts.path
    let path := if pathNameOf path = S "edit" then path.dropLast else path
    Except.ok (pathNameOf path)
  else Except.error PreconditionError.assertionFailed

/-- Entry.chapter_title of dodo.py. -/
def Entry.chapter_title (e : Entry) : Str :=
  ':' :: e.emoji_name ++ (':' :: ' ' :: e.title)

/-- Entry.metadata_target of dodo.py. -/
def Entry.metadata_target (e : Entry) : PathM :=
  pyWithSuffix (build_dir ++ pathComps e.basename) (S ".yaml")

/-- Entry.raw_html_target of dodo.py. -/
def Entry.raw_html_target (e : Entry) : PathM :=
  pyWithSuffix (build_dir ++ pathComps e.basename) (S ".raw.html")

/-- Entry.readable_html_target of dodo.py. -/
def Entry.readable_html_target (e : Entry) : PathM :=
  pyWithSuffix (build_dir ++ pathComps e.basename) (S ".readable.html")

/-- Entry.emoji_target of dodo.py: the emoji name under the build
directory, with the suffix taken from the emoji url path. -/
def Entry.emoji_target (e : Entry) : PathM :=
  let emoji_url := pyUrlparse e.emoji_url
  pyWithSuffix (build_dir ++ pathComps e.emoji_name) (pySuffix (pathComps emoji_url.path))

/-!
Construction of entries from raw configuration values, with the
split_tags pre-validator.  A raw tags value is a string, a list of
strings, or a value of some other shape; pydantic then checks the
validator result against the declared field type, a list of strings.
The url field is declared as a plain string: it gets no validation.
-/

inductive TagsValue
  | strV (s : Str)
  | listV (l : List Str)
  | badType
deriving DecidableEq

/-- re.split on the pattern ws-star comma ws-star, as a left-to-right
scan.  A match of the pattern is a comma together with the maximal
whitespace runs around it, so the piece before a comma loses its
trailing whitespace (dropped from the reversed accumulator) and the
scan after a comma skips whitespace (the skip flag). -/
def splitCommaWsAux : Bool → Str → Str → List Str
  | _, [], acc => [acc.reverse]
  | skip, c :: rest, acc =>
    if skip && isPySpace c then splitCommaWsAux true rest acc
    else if c = ',' then
      (acc.dropWhile isPySpace).reverse :: splitCommaWsAux true rest []
    else splitCommaWsAux false rest (c :: acc)

/-- re.split of the tag-separator pattern applied to a whole string. -/
def reSplitCommaWs (s : Str) : List Str := splitCommaWsAux false s []

/-- The split_tags validator of dodo.py: a string is split on the
separator pattern, anything else is passed through. -/
def split_tags : TagsValue → TagsValue
  | TagsValue.strV s => TagsValue.listV (reSplitCommaWs s)
  | v => v

/-- Failure of pydantic model validation, ValidationError in the spec. -/
inductive ValidationError
  | invalidTagsType
deriving DecidableEq

/-- Field validation of the tags field: the value left by split_tags
must be a list of strings. -/
def validateTags (v : TagsValue) : Except ValidationError (List Str) :=
  match split_tags v with
  | TagsValue.listV l => Except.ok l
  | _ => Except.error ValidationError.invalidTagsType

/-- A raw configuration entry, before validation. -/
structure RawEntry where
  title : Str
  emoji_url : Str
  emoji_name : Str
  tags : TagsValue
  url : Str
deriving DecidableEq

/-- The entry a raw entry yields once its tags are validated: every
field other than tags is taken over unchanged. -/
def entryFromRaw (r : RawEntry) (tags : List Str) : Entry :=
  { title := r.title, emoji_url := r.emoji_url, emoji_name := r.emoji_name,
    tags := tags, url := r.url }

/-- Entry construction: pydantic validation of a raw entry.  Only the
tags field has a validator; every other field, url included, is
accepted as the string it is. -/
def mkEntry (r : RawEntry) : Except ValidationError Entry :=
  (validateTags r.tags).map (entryFromRaw r)

/-!
The Book record (the Collection of the spec) and its derived values.
-/

structure Book where
  title : Str
  entries : List Entry
deriving DecidableEq

/-- Book construction from parsed configuration content (Book.from_yaml
after the yaml load): each raw entry is validated in order. -/
def mkBook (title : Str) (raws : List RawEntry) : Except ValidationError Book :=
  (raws.mapM mkEntry).map fun entries => { title := title, entries := entries }

/-- Book.identifier of dodo.py: the sha256 hexdigest of the utf8
encoding of the title. -/
def Book.identifier (b : Book) : Str := sha256HexOfStr b.title

/-- Book.cover_html_target of dodo.py. -/
def Book.cover_html_target (_ : Book) : PathM := build_dir ++ [S "cover.html"]

/-- Book.cover_image_target of dodo.py. -/
def Book.cover_image_target (_ : Book) : PathM := build_dir ++ [S "cover.png"]

/-- Book.epub_target of dodo.py. -/
def Book.epub_target (_ : Book) : PathM := build_dir ++ [S "book.epub"]

/-!
Task bodies as traces of observable operations.  A task body is a
straight-line sequence of network and file operations; an exception at
some point leaves a prefix of the sequence executed, possibly with the
operation at the failure point applied partially.  The rename
constructor is in the alphabet so that absence of a temporary-file
rename is expressible; dodo.py never emits it.
-/

structure Response where
  status : Nat
  text : Str
deriving DecidableEq

inductive Event
  | httpGet (url : Str)
  | fileOpenWrite (p : PathM)
  | fileWrite (p : PathM) (data : Str)
  | fileClose (p : PathM)
  | fileRename (src dst : PathM)
deriving DecidableEq

/-- The export URL built by download_html in task_raw_html. -/
def exportUrlFor (fid : Str) : Str :=
  S "https://www.googleapis.com/drive/v3/files/" ++ fid ++ S "/export"

/-- The download_html closure of task_raw_html, as the operation trace
it performs for a given response: derive the file id (an assertion that
may fail), issue one GET, open the target, write the response text,
close.  No status inspection, no retry. -/
def download_html_events (e : Entry) (resp : Response) :
    Except PreconditionError (List Event) :=
  e.google_drive_file_id.map fun fid =>
    [Event.httpGet (exportUrlFor fid),
     Event.fileOpenWrite e.raw_html_target,
     Event.fileWrite e.raw_html_target resp.text,
     Event.fileClose e.raw_html_target]

/-- The download_emoji closure of task_emoji, as its operation trace:
one GET of the emoji url, open the target, write the response bytes,
close. -/
def download_emoji_events (e : Entry) (resp : Response) : List Event :=
  [Event.httpGet e.emoji_url,
   Event.fileOpenWrite e.emoji_target,
   Event.fileWrite e.emoji_target resp.text,
   Event.fileClose e.emoji_target]

/-- A filesystem state: contents of each path, if the file exists. -/
def Fs := PathM → Option Str

def emptyFs : Fs := fun _ => none

def fsUpdate (fs : Fs) (p : PathM) (v : Option Str) : Fs :=
  fun q => if q = p then v else fs q

/-- Effect of one completed operation on the filesystem: opening for
writing truncates or creates the file, a write appends its data. -/
def applyEvent (fs : Fs) : Event → Fs
  | Event.httpGet _ => fs
  | Event.fileOpenWrite p => fsUpdate fs p (some [])
  | Event.fileWrite p d => fsUpdate fs p (some (((fs p).getD []) ++ d))
  | Event.fileClose _ => fs
  | Event.fileRename src dst => fun q =>
      if q = dst then fs src else if q = src then none else fs q

/-- Run a whole trace from the empty filesystem. -/
def runEvents (evs : List Event) : Fs := evs.foldl applyEvent emptyFs

/-- Filesystem after the body raises at step k having written only the
first j characters of the data if step k is a write: the first k
operations completed, the interrupted write left a prefix. -/
def runInterrupted (evs : List Event) (k j : Nat) : Fs :=
  let fs := (evs.take k).foldl applyEvent emptyFs
  match evs.get? k with
  | some (Event.fileWrite p d) => fsUpdate fs p (some (((fs p).getD []) ++ d.take j))
  | _ => fs

/-- Atomic creation of a target by a trace, as claimed by the spec:
however the body is interrupted, the target is either absent or holds
the complete final content. -/
def AtomicTargetCreation (evs : List Event) (target : PathM) (full : Str) : Prop :=
  ∀ k j, runInterrupted evs k j target = none ∨ runInterrupted evs k j target = some full

def isRenameEvent : Event → Bool
  | Event.fileRename _ _ => true
  | _ => false

def isHttpGetEvent : Event → Bool
  | Event.httpGet _ => true
  | _ => false

/-- The data payloads of the write operations of a trace. -/
def writtenData (evs : List Event) : List Str :=
  evs.filterMap fun ev =>
    match ev with
    | Event.fileWrite _ d => some d
    | _ => none

/-- A doit task descriptor: name, declared inputs, declared targets. -/
structure TaskDesc where
  name : Str
  file_dep : List PathM
  targets : List PathM
deriving DecidableEq

/-- The per-entry descriptor generated by task_emoji. -/
def emojiTaskFor (e : Entry) : TaskDesc :=
  { name := e.basename, file_dep := [e.metadata_target], targets := [e.emoji_target] }

/-- task_emoji of dodo.py: one descriptor per entry. -/
def task_emoji (b : Book) : List TaskDesc := b.entries.map emojiTaskFor

/-- The per-entry descriptor generated by task_raw_html. -/
def rawHtmlTaskFor (e : Entry) : TaskDesc :=
  { name := e.basename, file_dep := [e.metadata_target], targets := [e.raw_html_target] }

/-- task_raw_html of dodo.py: one descriptor per entry. -/
def task_raw_html (b : Book) : List TaskDesc := b.entries.map rawHtmlTaskFor

/-!
Model of make_epub.  The jinja chapter template and the ebooklib
assembly are external collaborators; a rendered chapter is modelled as
the context handed to the template, and the assembled book as its
metadata, image items, chapter list, table of contents and spine.
-/

/-- The export-failure marker searched for in fetched bodies. -/
def cannotExportMarker : Str := S "cannotExportFile"

/-- raw_html_includes_title of make_epub: the lowercased title occurs
in the lowercased body. -/
def raw_html_includes_title (e : Entry) (raw_html : Str) : Bool :=
  containsSub (lowerStr raw_html) (lowerStr e.title)

/-- raw_html_includes_tags of make_epub: every lowercased tag occurs
in the lowercased body. -/
def raw_html_includes_tags (e : Entry) (raw_html : Str) : Bool :=
  e.tags.all fun tag => containsSub (lowerStr raw_html) (lowerStr tag)

/-- raw_html_failed_to_export of make_epub: the marker occurs in the
body as written, without lowercasing. -/
def raw_html_failed_to_export (raw_html : Str) : Bool :=
  containsSub raw_html cannotExportMarker

/-- The context rendered into a chapter by the chapter template. -/
structure ChapterContext where
  raw_html : Str
  title : Str
  url : Str
  tags : List Str
  emoji_file_name : Str
  emoji_name : Str
  raw_html_includes_title : Bool
  raw_html_includes_tags : Bool
  raw_html_failed_to_export : Bool
deriving DecidableEq

/-- One chapter item of the assembled book. -/
structure Chapter where
  title : Str
  file_name : Str
  content : ChapterContext
deriving DecidableEq

/-- A spine slot: the cover page, the navigation page, or a chapter. -/
inductive SpineItem
  | cover
  | nav
  | chapter (c : Chapter)
deriving DecidableEq

/-- Zero-padding to width two of Python format 02d. -/
def pad2 (n : Nat) : Str :=
  let d := Nat.toDigits 10 n
  if d.length < 2 then '0' :: d else d

/-- The chapter built for one entry in the loop of make_epub, with the
one-based chapter number. -/
def mkChapter (chapter_number : Nat) (e : Entry) (body : Str) : Chapter :=
  { title := e.chapter_title
    file_name := S "chapter_" ++ pad2 chapter_number ++ S ".xhtml"
    content :=
      { raw_html := body
        title := e.title
        url := e.url
        tags := e.tags
        emoji_file_name := pathNameOf e.emoji_target
        emoji_name := e.emoji_name
        raw_html_includes_title := raw_html_includes_title e body
        raw_html_includes_tags := raw_html_includes_tags e body
        raw_html_failed_to_export := raw_html_failed_to_export body } }

/-- The assembled epub document. -/
structure EpubModel where
  identifier : Str
  bookTitle : Str
  language : Str
  author : Str
  coverImageName : Str
  images : List (Str × Str)
  toc : List Chapter
  spine : List SpineItem
deriving DecidableEq

/-- Position-numbered entries, as Python enumerate starting at i. -/
def enumFrom (i : Nat) : List α → List (Nat × α)
  | [] => []
  | a :: as => (i, a) :: enumFrom (i + 1) as

/-- make_epub of dodo.py: chapters are built by iterating the entries
in configured order with enumerate, each reading its raw html target;
the table of contents is assigned the chapter list, and the spine is
the cover page, then the nav document, then the chapters. -/
def make_epub (b : Book) (readFile : PathM → Str) : EpubModel :=
  let chapters := (enumFrom 0 b.entries).map fun p =>
    mkChapter (p.1 + 1) p.2 (readFile p.2.raw_html_target)
  { identifier := b.identifier
    bookTitle := b.title
    language := S "en"
    author := S "Various Authors"
    coverImageName := S "cover.png"
    images := b.entries.map fun e => (pathNameOf e.emoji_target, readFile e.emoji_target)
    toc := chapters
    spine := SpineItem.cover :: SpineItem.nav :: chapters.map SpineItem.chapter }

/-!
Spec-side definitions: the following definitions are phrased from the
wording of the specification, independently of the implementation, and
the theorems below compare the implementation with them.
-/

/-- Spec wording for the basename transformation on whitespace: every
maximal run of whitespace is replaced by a single hyphen. -/
def specCollapse : Str → Str
  | [] => []
  | c :: rest =>
    if isPySpace c then '-' :: specCollapse (rest.dropWhile isPySpace)
    else c :: specCollapse rest
termination_by s => s.length
decreasing_by
  all_goals
    have key : ∀ l : Str, (l.dropWhile isPySpace).length ≤ l.length := by
      intro l
      induction l with
      | nil => simp
      | cons a as ih =>
        by_cases h : isPySpace a
        · simp only [List.dropWhile, h, List.length_cons]
          omega
        · simp [List.dropWhile, h]
  all_goals simp only [List.length_cons]
  · exact Nat.lt_succ_of_le (key _)
  · exact Nat.lt_succ_self _

/-- Spec wording for basename: the title lowercased, whitespace runs
collapsed to hyphens, and every character that is neither alphanumeric
nor underscore nor hyphen removed. -/
def specBasename (title : Str) : Str :=
  (specCollapse (lowerStr title)).filter keepChar

/-- Spec wording for the document identity: strip a trailing edit
segment of the path if present. -/
def specStripEdit (comps : List Str) : List Str :=
  if comps.getLast? = some (S "edit") then comps.dropLast else comps

/-- Spec wording for the document identity: the final segment of a
path, empty if there is none. -/
def specFinalSegment (comps : List Str) : Str := comps.getLast?.getD []

/-- A comma-separated string equivalent to an explicit tag list: the
elements joined by a comma and a space. -/
def joinCommaSpace : List Str → Str
  | [] => []
  | [t] => t
  | t :: rest => t ++ (',' :: ' ' :: joinCommaSpace rest)

/-- Decidable equality of Except values, for concrete evaluation. -/
instance {ε α : Type} [DecidableEq ε] [DecidableEq α] : DecidableEq (Except ε α)
  | Except.ok a, Except.ok b =>
    if h : a = b then Decidable.isTrue (by rw [h])
    else Decidable.isFalse (by intro hh; cases hh; exact h rfl)
  | Except.error a, Except.error b =>
    if h : a = b then Decidable.isTrue (by rw [h])
    else Decidable.isFalse (by intro hh; cases hh; exact h rfl)
  | Except.ok _, Except.error _ => Decidable.isFalse (by intro hh; cases hh)
  | Except.error _, Except.ok _ => Decidable.isFalse (by intro hh; cases hh)

/-!
Concrete inputs used by witnesses and counterexamples.
-/

/-- The end-to-end example entry of the spec. -/
def exGood : Entry :=
  { title := S "Hello World"
    emoji_url := S "https://example.com/grin.png"
    emoji_name := S "grin"
    tags := [S "fun", S "test"]
    url := S "https://docs.google.com/document/d/ABC123/edit" }

/-- The same entry with a url that is not a URL at all. -/
def exBadUrl : Entry := { exGood with url := S "not a url" }

/-- Entry with the same emoji name and icon suffix as exGood but
otherwise different. -/
def exOtherIcon : Entry :=
  { title := S "Second Article"
    emoji_url := S "https://cdn.example.org/assets/smile.png"
    emoji_name := S "grin"
    tags := []
    url := S "https://docs.google.com/document/d/ZZZ999/edit" }

/-- A raw configuration entry whose url is malformed. -/
def exRawBadUrl : RawEntry :=
  { title := S "Hello World"
    emoji_url := S "https://example.com/grin.png"
    emoji_name := S "grin"
    tags := TagsValue.strV (S "fun, test")
    url := S "not a url" }

def exResp200 : Response := { status := 200, text := S "hello" }

def exResp404 : Response := { status := 404, text := S "error page" }

def exBookA : Book := { title := S "Reading List", entries := [exGood] }

def exBookB : Book := { title := S "Reading List", entries := [] }

def exBookC : Book := { title := S "Reading list", entries := [exGood] }

/-- A concrete filesystem-read stub for packaging examples. -/
def exRead : PathM → Str := fun _ => S "Hello World by someone"

/-- The trace download_html performs for exGood and exResp200. -/
def exEvs200 : List Event :=
  [Event.httpGet (exportUrlFor (S "ABC123")),
   Event.fileOpenWrite exGood.raw_html_target,
   Event.fileWrite exGood.raw_html_target exResp200.text,
   Event.fileClose exGood.raw_html_target]

/-- The trace download_html performs for exGood and exResp404. -/
def exEvs404 : List Event :=
  [Event.httpGet (exportUrlFor (S "ABC123")),
   Event.fileOpenWrite exGood.raw_html_target,
   Event.fileWrite exGood.raw_html_target exResp404.text,
   Event.fileClose exGood.raw_html_target]

/-- A body that contains the export-failure marker only up to case. -/
def exShoutBody : Str := S "CANNOTEXPORTFILE"

/-!
Supporting lemmas.
-/

lemma isPrefixOf_iff_exists (n h : Str) :
    n.isPrefixOf h = true ↔ ∃ q, h = n ++ q := by
  induction n generalizing h with
  | nil => simp [List.isPrefixOf]
  | cons a as ih =>
    cases h with
    | nil => simp [List.isPrefixOf]
    | cons b bs =>
      simp only [List.isPrefixOf, Bool.and_eq_true, beq_iff_eq, ih]
      constructor
      · rintro ⟨rfl, q, rfl⟩; exact ⟨q, rfl⟩
      · rintro ⟨q, hq⟩
        injection hq with h1 h2
        exact ⟨h1.symm, q, h2⟩

lemma containsSub_iff (hay needle : Str) :
    containsSub hay needle = true ↔ OccursIn needle hay := by
  induction hay with
  | nil =>
    simp only [containsSub, List.isEmpty_iff, OccursIn]
    constructor
    · rintro rfl; exact ⟨[], [], rfl⟩
    · rintro ⟨p, q, hpq⟩
      have h2 := List.append_eq_nil.mp hpq.symm
      exact (List.append_eq_nil.mp h2.1).2
  | cons c t ih =>
    simp only [containsSub, Bool.or_eq_true, isPrefixOf_iff_exists, ih, OccursIn]
    constructor
    · rintro (⟨q, hq⟩ | ⟨p, q, hq⟩)
      · exact ⟨[], q, by simpa using hq⟩
      · exact ⟨c :: p, q, by simp [hq]⟩
    · rintro ⟨p, q, hq⟩
      cases p with
      | nil => exact Or.inl ⟨q, by simpa using hq⟩
      | cons x xs =>
        injection hq with h1 h2
        exact Or.inr ⟨xs, q, h2⟩
lemma strictCons_eq (n : Nat) (l : List Nat) : strictCons n l = n :: l := by
  cases n <;> rfl

lemma dropWhile_eq_self_of_all {p : Char → Bool} {l : Str}
    (h : ∀ x ∈ l, p x = false) : l.dropWhile p = l := by
  cases l with
  | nil => rfl
  | cons a as => simp [List.dropWhile, h a (List.mem_cons_self a as)]

lemma space_not_kept (c : Char) (h : isPySpace c = true) : keepChar c = false := by
  have hm : c ∈ [' ', '\t', '\n', '\r', '\x0b', '\x0c'] := by
    simp only [isPySpace, Bool.or_eq_true, decide_eq_true_eq] at h
    simp only [List.mem_cons, List.not_mem_nil, or_false]
    tauto
  fin_cases hm <;> decide

lemma kept_not_space (c : Char) (h : keepChar c = true) : isPySpace c = false := by
  cases hs : isPySpace c with
  | false => rfl
  | true => rw [space_not_kept c hs] at h; exact absurd h (by simp)

/-- The scan of collapseWsAux agrees with the spec-side collapse: with
the flag clear it is specCollapse, with the flag set it is specCollapse
after skipping the pending whitespace run. -/
lemma collapseWsAux_eq_spec (s : Str) :
    collapseWsAux false s = specCollapse s ∧
    collapseWsAux true s = specCollapse (s.dropWhile isPySpace) := by
  induction s with
  | nil => exact ⟨by simp [collapseWsAux, specCollapse], by simp [collapseWsAux, specCollapse]⟩
  | cons c rest ih =>
    by_cases hc : isPySpace c
    · constructor
      · rw [show collapseWsAux false (c :: rest) = '-' :: collapseWsAux true rest by
            simp [collapseWsAux, hc]]
        rw [ih.2]
        simp [specCollapse, hc]
      · rw [show collapseWsAux true (c :: rest) = collapseWsAux true rest by
            simp [collapseWsAux, hc]]
        rw [ih.2]
        simp [List.dropWhile, hc]
    · have h1 : collapseWsAux false (c :: rest) = c :: collapseWsAux false rest := by
        simp [collapseWsAux, hc]
      have h2 : collapseWsAux true (c :: rest) = c :: collapseWsAux false rest := by
        simp [collapseWsAux, hc]
      have h3 : specCollapse (c :: rest) = c :: specCollapse rest := by
        simp [specCollapse, hc]
      constructor
      · rw [h1, ih.1, h3]
      · rw [h2, ih.1]
        simp [List.dropWhile, hc, h3]

/-- The filter step of basename leaves no whitespace, so the final
rstrip is the identity there. -/
lemma rstripL_filter_keep (l : Str) :
    rstripL (l.filter keepChar) = l.filter keepChar := by
  unfold rstripL
  rw [dropWhile_eq_self_of_all, List.reverse_reverse]
  intro x hx
  rw [List.mem_reverse, List.mem_filter] at hx
  exact kept_not_space x hx.2

/-- The final path component equals the edit literal exactly when the
last component is the edit literal. -/
lemma pathNameOf_eq_edit_iff (p : List Str) :
    pathNameOf p = S "edit" ↔ p.getLast? = some (S "edit") := by
  unfold pathNameOf
  cases hL : p.getLast? with
  | none =>
    simp only [Option.getD_none, hL]
    constructor
    · intro h; exact absurd h (by decide)
    · intro h; cases h
  | some a => simp

/-!
Claim theorems.
-/

/-- C4: deriving the document identity returns the final segment of the
URL path after stripping a trailing edit segment, and fails with a
PreconditionError (a failed assertion) when the host is not
docs.google.com. -/
theorem c4_document_identity (e : Entry) :
    ((pyUrlparse e.url).hostname = some (S "docs.google.com") →
      e.google_drive_file_id =
        Except.ok (specFinalSegment (specStripEdit (pathComps (pyUrlparse e.url).path)))) ∧
    ((pyUrlparse e.url).hostname ≠ some (S "docs.google.com") →
      e.google_drive_file_id = Except.error PreconditionError.assertionFailed) := by
  constructor
  · intro h
    simp only [Entry.google_drive_file_id, specFinalSegment, specStripEdit]
    rw [if_pos h]
    by_cases hc : (pathComps (pyUrlparse e.url).path).getLast? = some (S "edit")
    · rw [if_pos ((pathNameOf_eq_edit_iff _).mpr hc), if_pos hc]
      rfl
    · rw [if_neg fun hh => hc ((pathNameOf_eq_edit_iff _).mp hh), if_neg hc]
      rfl
  · intro h
    simp only [Entry.google_drive_file_id]
    rw [if_neg h]

/-- Witness for C4 on the example URL of the spec and on a bad host. -/
theorem c4_document_identity_witness :
    exGood.google_drive_file_id = Except.ok (S "ABC123") ∧
    exBadUrl.google_drive_file_id = Except.error PreconditionError.assertionFailed := by
  constructor
  · have h := (c4_document_identity exGood).1 (by decide)
    exact h.trans (by decide)
  · exact (c4_document_identity exBadUrl).2 (by decide)

/-- C5: basename equals the spec description (lowercase, whitespace
runs to single hyphens, other than alphanumeric, underscore and hyphen
removed), and re-deriving from the same title gives the same string. -/
theorem c5_basename_spec (e : Entry) :
    e.basename = specBasename e.title ∧
    ∀ e2 : Entry, e2.title = e.title → e2.basename = e.basename := by
  constructor
  · unfold Entry.basename specBasename
    rw [(collapseWsAux_eq_spec (lowerStr e.title)).1, rstripL_filter_keep]
  · intro e2 ht
    unfold Entry.basename
    rw [ht]

/-- Witness for C5 at the example title, evaluated concretely. -/
theorem c5_basename_spec_witness :
    exGood.basename = specBasename exGood.title ∧
    exOtherIcon.basename = specBasename exOtherIcon.title ∧
    ({ exOtherIcon with title := exGood.title } : Entry).basename = exGood.basename ∧
    exGood.basename = S "hello-world" := by
  refine ⟨(c5_basename_spec exGood).1, (c5_basename_spec exOtherIcon).1,
    (c5_basename_spec exGood).2 { exOtherIcon with title := exGood.title } rfl, by decide⟩

/-- C10: the icon target path is a function of the emoji name and of
the suffix of the icon URL path alone, so the task descriptors of two
entries agreeing on those declare the same target file. -/
theorem c10_emoji_target_collision (e1 e2 : Entry)
    (hname : e1.emoji_name = e2.emoji_name)
    (hsfx : pySuffix (pathComps (pyUrlparse e1.emoji_url).path) =
            pySuffix (pathComps (pyUrlparse e2.emoji_url).path)) :
    e1.emoji_target = e2.emoji_target ∧
    (emojiTaskFor e1).targets = (emojiTaskFor e2).targets := by
  have h : e1.emoji_target = e2.emoji_target := by
    simp only [Entry.emoji_target]
    rw [hname, hsfx]
  exact ⟨h, by simp [emojiTaskFor, h]⟩

/-- Witness for C10: two distinct entries, same emoji name and icon
suffix, identical declared icon target. -/
theorem c10_emoji_target_collision_witness :
    exGood ≠ exOtherIcon ∧
    exGood.emoji_target = exOtherIcon.emoji_target ∧
    (emojiTaskFor exGood).targets = (emojiTaskFor exOtherIcon).targets := by
  have h := c10_emoji_target_collision exGood exOtherIcon (by decide) (by decide)
  exact ⟨by decide, h.1, h.2⟩

/-- C9: the article export fetch writes the response body verbatim to
the raw HTML target, with a single request, no status check (the trace
is the same for any status), for every response. -/
theorem c9_verbatim_export_write (e : Entry) (resp : Response) (evs : List Event)
    (h : download_html_events e resp = Except.ok evs) :
    evs.countP isHttpGetEvent = 1 ∧
    writtenData evs = [resp.text] ∧
    runEvents evs e.raw_html_target = some resp.text ∧
    ∀ s2 : Nat, download_html_events e { status := s2, text := resp.text } = Except.ok evs := by
  cases hg : e.google_drive_file_id with
  | error err => simp [download_html_events, hg, Except.map] at h
  | ok fid =>
    simp only [download_html_events, hg, Except.map, Except.ok.injEq] at h
    subst h
    refine ⟨by simp [List.countP, List.countP.go, isHttpGetEvent], ?_, ?_, ?_⟩
    · simp [writtenData]
    · simp [runEvents, applyEvent, fsUpdate, emptyFs]
    · intro s2
      simp [download_html_events, hg, Except.map]

/-- Witness for C9 at a non-success response: the error page body is
written verbatim. -/
theorem c9_verbatim_export_write_witness :
    exEvs404.countP isHttpGetEvent = 1 ∧
    writtenData exEvs404 = [exResp404.text] ∧
    runEvents exEvs404 exGood.raw_html_target = some exResp404.text := by
  have h := c9_verbatim_export_write exGood exResp404 exEvs404 (by decide)
  exact ⟨h.1, h.2.1, h.2.2.1⟩

/-- C1 counterexample: the claim that targets are created atomically
fails on download_html, whose trace opens and writes the final target
path directly; interrupting the write after the open leaves an empty
file at the target. -/
theorem c1_claim_counterexample :
    download_html_events exGood exResp200 = Except.ok exEvs200 ∧
    ¬ AtomicTargetCreation exEvs200 exGood.raw_html_target exResp200.text := by
  constructor
  · decide
  · intro hA
    have h := hA 2 0
    revert h
    decide

/-- C1 amended: a failure before or during the fetch leaves no target
file, and the traces contain no rename; but the body is written
directly to the final path, so an interruption during the write leaves
exactly the prefix written so far at the target.  The same holds for
download_emoji and the icon target. -/
theorem c1_nonatomic_direct_write (e : Entry) (resp : Response) (evs : List Event)
    (h : download_html_events e resp = Except.ok evs) :
    (runInterrupted evs 0 0 e.raw_html_target = none ∧
     runInterrupted evs 1 0 e.raw_html_target = none) ∧
    (∀ ev ∈ evs, isRenameEvent ev = false) ∧
    (∀ j, runInterrupted evs 2 j e.raw_html_target = some (resp.text.take j)) ∧
    (runInterrupted (download_emoji_events e resp) 1 0 e.emoji_target = none ∧
     (∀ ev ∈ download_emoji_events e resp, isRenameEvent ev = false) ∧
     ∀ j, runInterrupted (download_emoji_events e resp) 2 j e.emoji_target
       = some (resp.text.take j)) := by
  cases hg : e.google_drive_file_id with
  | error err => simp [download_html_events, hg, Except.map] at h
  | ok fid =>
    simp only [download_html_events, hg, Except.map, Except.ok.injEq] at h
    subst h
    refine ⟨⟨?_, ?_⟩, ?_, ?_, ?_, ?_, ?_⟩
    · simp [runInterrupted, emptyFs]
    · simp [runInterrupted, applyEvent, emptyFs]
    · intro ev hev
      fin_cases hev <;> rfl
    · intro j
      simp [runInterrupted, applyEvent, fsUpdate, emptyFs]
    · simp [download_emoji_events, runInterrupted, applyEvent, emptyFs]
    · intro ev hev
      fin_cases hev <;> rfl
    · intro j
      simp [download_emoji_events, runInterrupted, applyEvent, fsUpdate, emptyFs]

/-- Witness for C1 amended: concrete fetch failure leaves no file,
write interruption leaves a two-character prefix at the target. -/
theorem c1_nonatomic_direct_write_witness :
    runInterrupted exEvs200 1 0 exGood.raw_html_target = none ∧
    runInterrupted exEvs200 2 2 exGood.raw_html_target = some (exResp200.text.take 2) := by
  have h := c1_nonatomic_direct_write exGood exResp200 exEvs200 (by decide)
  exact ⟨h.1.2, h.2.2.1 2⟩

/-- C2 counterexample: a body containing the export marker only up to
case is not flagged, because the marker search does not lowercase. -/
theorem c2_claim_counterexample :
    OccursIn (lowerStr cannotExportMarker) (lowerStr exShoutBody) ∧
    (mkChapter 1 exGood exShoutBody).content.raw_html_failed_to_export = false := by
  exact ⟨(containsSub_iff _ _).mp (by decide), by decide⟩

/-- C2 amended: the title flag and the all-tags flag are
case-insensitive substring tests, while the export-failure flag is a
case-sensitive search for the literal marker. -/
theorem c2_chapter_flags (n : Nat) (e : Entry) (body : Str) :
    ((mkChapter n e body).content.raw_html_includes_title = true ↔
      OccursIn (lowerStr e.title) (lowerStr body)) ∧
    ((mkChapter n e body).content.raw_html_includes_tags = true ↔
      ∀ tag ∈ e.tags, OccursIn (lowerStr tag) (lowerStr body)) ∧
    ((mkChapter n e body).content.raw_html_failed_to_export = true ↔
      OccursIn cannotExportMarker body) := by
  refine ⟨?_, ?_, ?_⟩
  · simpa [mkChapter, raw_html_includes_title] using
      containsSub_iff (lowerStr body) (lowerStr e.title)
  · simp only [mkChapter, raw_html_includes_tags, List.all_eq_true]
    exact forall_congr' fun tag => imp_congr Iff.rfl (containsSub_iff _ _)
  · simpa [mkChapter, raw_html_failed_to_export] using
      containsSub_iff body cannotExportMarker

/-- Witness for C2 amended at a concrete body containing the title
and both tags. -/
theorem c2_chapter_flags_witness :
    OccursIn (lowerStr exGood.title) (lowerStr (S "fun test of Hello World")) ∧
    (mkChapter 1 exGood (S "fun test of Hello World")).content.raw_html_includes_tags
      = true := by
  have h := c2_chapter_flags 1 exGood (S "fun test of Hello World")
  refine ⟨h.1.mp (by decide), ?_⟩
  exact h.2.1.mpr fun tag htag => by
    fin_cases htag <;> exact (containsSub_iff _ _).mp (by decide)

/-- C3 counterexample: an entry with an unparseable url validates fine
at load time; the failure only appears at fetch time as a failed
assertion, not a ValidationError. -/
theorem c3_claim_counterexample :
    mkBook (S "Reading List") [exRawBadUrl] =
      Except.ok { title := S "Reading List", entries := [exBadUrl] } ∧
    (pyUrlparse exRawBadUrl.url).hostname = none ∧
    exBadUrl.google_drive_file_id = Except.error PreconditionError.assertionFailed := by
  refine ⟨by decide, by decide, by decide⟩

/-- C3 amended: entry construction performs no url validation at all
(it succeeds whenever the tags value is well-typed, whatever the url),
and an unsupported url makes the fetch-time identity derivation fail
with the assertion modelled as PreconditionError. -/
theorem c3_no_load_time_url_validation (r : RawEntry) :
    (∀ tags, validateTags r.tags = Except.ok tags →
      mkEntry r = Except.ok (entryFromRaw r tags)) ∧
    (∀ e, mkEntry r = Except.ok e → e.url = r.url) ∧
    (∀ e, mkEntry r = Except.ok e →
      (pyUrlparse r.url).hostname ≠ some (S "docs.google.com") →
      e.google_drive_file_id = Except.error PreconditionError.assertionFailed) := by
  refine ⟨?_, ?_, ?_⟩
  · intro tags htags
    simp [mkEntry, htags, Except.map]
  · intro e he
    cases hv : validateTags r.tags with
    | error err => simp [mkEntry, hv, Except.map] at he
    | ok tags =>
      simp only [mkEntry, hv, Except.map, Except.ok.injEq] at he
      rw [← he]
      rfl
  · intro e he hh
    have hu : e.url = r.url := by
      cases hv : validateTags r.tags with
      | error err => simp [mkEntry, hv, Except.map] at he
      | ok tags =>
        simp only [mkEntry, hv, Except.map, Except.ok.injEq] at he
        rw [← he]
        rfl
    simp only [Entry.google_drive_file_id, hu]
    rw [if_neg hh]

/-- Witness for C3 amended at the malformed-url raw entry. -/
theorem c3_no_load_time_url_validation_witness :
    mkEntry exRawBadUrl = Except.ok exBadUrl ∧
    exBadUrl.google_drive_file_id = Except.error PreconditionError.assertionFailed := by
  have h := c3_no_load_time_url_validation exRawBadUrl
  have h1 : mkEntry exRawBadUrl = Except.ok exBadUrl := by
    have h2 := h.1 [S "fun", S "test"] (by decide)
    exact h2.trans (by decide)
  exact ⟨h1, h.2.2 exBadUrl h1 (by decide)⟩

lemma dropWhile_length_le (p : Char → Bool) (l : Str) :
    (l.dropWhile p).length ≤ l.length := by
  induction l with
  | nil => simp
  | cons a as ih =>
    by_cases h : p a
    · simp only [List.dropWhile, h, List.length_cons]
      omega
    · simp [List.dropWhile, h]

lemma head_false_of_dropWhile_self (p : Char → Bool) (c : Char) (cs : Str)
    (h : (c :: cs).dropWhile p = c :: cs) : p c = false := by
  by_cases hp : p c
  · exfalso
    rw [List.dropWhile_cons_of_pos hp] at h
    have := dropWhile_length_le p cs
    rw [h] at this
    simp at this
  · simpa using hp

lemma splitCommaWsAux_append_nocomma (t : Str) (s acc : Str)
    (h : ∀ c ∈ t, ¬(c = ',')) :
    splitCommaWsAux false (t ++ s) acc = splitCommaWsAux false s (t.reverse ++ acc) := by
  induction t generalizing acc with
  | nil => simp
  | cons c t' ih =>
    have hc : ¬(c = ',') := h c (List.mem_cons_self c t')
    rw [List.cons_append]
    rw [show splitCommaWsAux false (c :: (t' ++ s)) acc
        = splitCommaWsAux false (t' ++ s) (c :: acc) by
      simp [splitCommaWsAux, hc]]
    rw [ih (c :: acc) fun x hx => h x (List.mem_cons_of_mem c hx)]
    simp

lemma splitCommaWsAux_comma (s acc : Str) :
    splitCommaWsAux false (',' :: s) acc =
      (acc.dropWhile isPySpace).reverse :: splitCommaWsAux true s [] := by
  simp [splitCommaWsAux]

lemma splitCommaWsAux_true_to_false (s acc : Str)
    (h : s = [] ∨ ∃ c rest, s = c :: rest ∧ isPySpace c = false) :
    splitCommaWsAux true s acc = splitCommaWsAux false s acc := by
  rcases h with rfl | ⟨c, rest, rfl, hc⟩
  · rfl
  · simp [splitCommaWsAux, hc]

lemma joinCommaSpace_head_shape (r : Str) (rs : List Str)
    (hr : r.dropWhile isPySpace = r) :
    joinCommaSpace (r :: rs) = [] ∨
      ∃ c rest, joinCommaSpace (r :: rs) = c :: rest ∧ isPySpace c = false := by
  cases r with
  | cons c cr =>
    have hc := head_false_of_dropWhile_self isPySpace c cr hr
    cases rs with
    | nil => exact Or.inr ⟨c, cr, by simp [joinCommaSpace], hc⟩
    | cons r2 rs2 =>
      exact Or.inr ⟨c, cr ++ (',' :: ' ' :: joinCommaSpace (r2 :: rs2)),
        by simp [joinCommaSpace], hc⟩
  | nil =>
    cases rs with
    | nil => exact Or.inl rfl
    | cons r2 rs2 =>
      exact Or.inr ⟨',', ' ' :: joinCommaSpace (r2 :: rs2),
        by simp [joinCommaSpace], by decide⟩

/-- Splitting the canonical comma-space join of well-formed tag
strings recovers the list. -/
lemma reSplit_join (ts : List Str) (hne : ts ≠ [])
    (h : ∀ t ∈ ts, (∀ c ∈ t, ¬(c = ',')) ∧
      t.dropWhile isPySpace = t ∧ t.reverse.dropWhile isPySpace = t.reverse) :
    reSplitCommaWs (joinCommaSpace ts) = ts := by
  induction ts with
  | nil => exact absurd rfl hne
  | cons t rest ih =>
    obtain ⟨hcomma, hlead, htrail⟩ := h t (List.mem_cons_self t rest)
    cases rest with
    | nil =>
      unfold reSplitCommaWs
      rw [show joinCommaSpace [t] = t from rfl]
      rw [show (t : Str) = t ++ [] by simp]
      rw [splitCommaWsAux_append_nocomma t [] [] hcomma]
      simp [splitCommaWsAux]
    | cons r rs =>
      unfold reSplitCommaWs
      rw [show joinCommaSpace (t :: r :: rs)
          = t ++ (',' :: ' ' :: joinCommaSpace (r :: rs)) by simp [joinCommaSpace]]
      rw [splitCommaWsAux_append_nocomma t _ [] hcomma]
      rw [List.append_nil, splitCommaWsAux_comma]
      rw [htrail, List.reverse_reverse]
      rw [show splitCommaWsAux true (' ' :: joinCommaSpace (r :: rs)) []
          = splitCommaWsAux true (joinCommaSpace (r :: rs)) [] by
        have hsp : isPySpace ' ' = true := by decide
        simp [splitCommaWsAux, hsp]]
      have hrlead : r.dropWhile isPySpace = r := (h r (by simp)).2.1
      rw [splitCommaWsAux_true_to_false _ [] (joinCommaSpace_head_shape r rs hrlead)]
      rw [show splitCommaWsAux false (joinCommaSpace (r :: rs)) []
          = reSplitCommaWs (joinCommaSpace (r :: rs)) from rfl]
      rw [ih (by simp) fun x hx => h x (List.mem_cons_of_mem t hx)]

/-- C6: a tag list given as the equivalent comma-separated string (the
elements joined by comma-space, each element comma-free with no edge
whitespace) and the same list given explicitly normalize to the same
ordered sequence: the string is split on commas with surrounding
whitespace, the list passes through unchanged. -/
theorem c6_tag_forms_agree (ts : List Str) (hne : ts ≠ [])
    (h : ∀ t ∈ ts, (∀ c ∈ t, ¬(c = ',')) ∧
      t.dropWhile isPySpace = t ∧ t.reverse.dropWhile isPySpace = t.reverse) :
    validateTags (TagsValue.strV (joinCommaSpace ts)) = Except.ok ts ∧
    validateTags (TagsValue.listV ts) = Except.ok ts := by
  constructor
  · simp [validateTags, split_tags, reSplit_join ts hne h]
  · rfl

/-- Witness for C6 on the spec example: the string and list forms of
the fun-test tag pair agree. -/
theorem c6_tag_forms_agree_witness :
    validateTags (TagsValue.strV (S "fun, test")) = Except.ok [S "fun", S "test"] ∧
    validateTags (TagsValue.listV [S "fun", S "test"]) = Except.ok [S "fun", S "test"] := by
  have h := c6_tag_forms_agree [S "fun", S "test"] (by decide) (by decide)
  have hj : joinCommaSpace [S "fun", S "test"] = S "fun, test" := by decide
  exact ⟨by rw [← hj]; exact h.1, h.2⟩

/-- C7: the book identifier is a function of the title alone (books
with equal titles have equal identifiers whatever their entries), and
on concrete books a title change does change the identifier. -/
theorem c7_identifier_title_only :
    (∀ b1 b2 : Book, b1.title = b2.title → b1.identifier = b2.identifier) ∧
    exBookA.identifier = exBookB.identifier ∧
    exBookA.identifier ≠ exBookC.identifier := by
  refine ⟨fun b1 b2 h => by simp [Book.identifier, h], rfl, ?_⟩
  decide

/-- Witness for C7: same title, different entry lists, same identifier. -/
theorem c7_identifier_title_only_witness :
    exBookA.identifier = exBookB.identifier :=
  c7_identifier_title_only.1 exBookA exBookB rfl

lemma enumFrom_length (i : Nat) (l : List α) : (enumFrom i l).length = l.length := by
  induction l generalizing i with
  | nil => rfl
  | cons a as ih => simp [enumFrom, ih]

lemma enumFrom_get (i : Nat) (l : List α) (k : Nat)
    (hk : k < (enumFrom i l).length) (hk2 : k < l.length) :
    (enumFrom i l).get ⟨k, hk⟩ = (i + k, l.get ⟨k, hk2⟩) := by
  induction l generalizing i k with
  | nil => simp at hk2
  | cons a as ih =>
    cases k with
    | zero => simp [enumFrom]
    | succ k' =>
      have h1 : k' < (enumFrom (i + 1) as).length := by
        simpa [enumFrom] using hk
      have h2 : k' < as.length := by simpa using hk2
      rw [show (enumFrom i (a :: as)).get ⟨k' + 1, hk⟩
          = (enumFrom (i + 1) as).get ⟨k', h1⟩ from rfl]
      rw [ih (i + 1) k' h1 h2]
      simp only [List.get_eq_getElem, List.getElem_cons_succ]
      congr 1
      omega

/-- C8: the packaged document has exactly one chapter per entry in
configured order (the k-th chapter is built from the k-th entry with
chapter number k plus one), the table of contents is that chapter
list, and the spine is cover, nav, then the chapters in order. -/
theorem c8_entry_order (b : Book) (readFile : PathM → Str) :
    (make_epub b readFile).toc.length = b.entries.length ∧
    (∀ k (hk2 : k < (make_epub b readFile).toc.length) (hk : k < b.entries.length),
      (make_epub b readFile).toc.get ⟨k, hk2⟩ =
        mkChapter (k + 1) (b.entries.get ⟨k, hk⟩)
          (readFile (b.entries.get ⟨k, hk⟩).raw_html_target)) ∧
    (make_epub b readFile).spine =
      SpineItem.cover :: SpineItem.nav :: (make_epub b readFile).toc.map SpineItem.chapter := by
  refine ⟨by simp [make_epub, enumFrom_length], ?_, rfl⟩
  intro k hk2 hk
  have hk3 : k < (enumFrom 0 b.entries).length := by
    simpa [enumFrom_length] using hk
  simp only [make_epub, List.get_eq_getElem, List.getElem_map]
  rw [← List.get_eq_getElem (enumFrom 0 b.entries) ⟨k, hk3⟩]
  rw [enumFrom_get 0 b.entries k hk3 hk]
  simp

/-- Witness for C8 at the one-entry example book. -/
theorem c8_entry_order_witness :
    (make_epub exBookA exRead).toc.length = 1 ∧
    (make_epub exBookA exRead).toc.get ⟨0, by decide⟩
      = mkChapter 1 exGood (exRead exGood.raw_html_target) ∧
    (make_epub exBookA exRead).spine =
      SpineItem.cover :: SpineItem.nav
        :: (make_epub exBookA exRead).toc.map SpineItem.chapter := by
  have h := c8_entry_order exBookA exRead
  exact ⟨h.1.trans (by decide), h.2.1 0 (by decide) (by decide), h.2.2⟩

end LnContestEpub
